import Mathlib

/-!
# Verification of the MIDImachine channel/conflict core

Shallow embedding of the client utility module (`baseName`, conflict
detection, config persistence, channel assignment) and of the relay
server's store (`updateCC`) and inbound handler (`handleClientMidi`).

JavaScript strings are modelled as lists of code points (`List Nat`);
JavaScript objects used as dictionaries are modelled as association
lists where assignment replaces in place or appends at the end, which
matches JS own-property update/insertion order.
-/

namespace MIDImachine

/-- JS string, as a list of UTF-16 code points. -/
abbrev Str := List Nat

/-- Code points of a Lean string literal, for concrete test inputs. -/
def strCodes (s : String) : Str := s.data.map Char.toNat

/-- The whitespace class of JS `trim` and regex `\s` (ASCII part:
space, tab, LF, VT, FF, CR). -/
def isWS (c : Nat) : Bool := c == 32 || c == 9 || c == 10 || c == 11 || c == 12 || c == 13

/-- The digit class of regex `\d`: `[0-9]`. -/
def isDigitC (c : Nat) : Bool := 48 ≤ c && c ≤ 57

/-- One character of `String.prototype.toLowerCase` (ASCII range). -/
def lowerC (c : Nat) : Nat := if 65 ≤ c && c ≤ 90 then c + 32 else c

/-- Model of `String.prototype.toLowerCase` (ASCII range). -/
def jsLower (s : Str) : Str := s.map lowerC

/-- Model of `String.prototype.trim`: drop leading and trailing whitespace. -/
def jsTrim (s : Str) : Str :=
  ((s.dropWhile isWS).reverse.dropWhile isWS).reverse

/-- Model of the call of `replace` with the regex `\s+\d+$` and an empty
replacement string: remove the leftmost (hence longest)
suffix consisting of one-or-more whitespace characters followed by
one-or-more digits.  Equivalently: if the string ends in a nonempty
digit run immediately preceded by a nonempty whitespace run, both
maximal runs are removed; otherwise the string is unchanged. -/
def stripTrailingNum (s : Str) : Str :=
  let r := s.reverse
  let d := r.takeWhile isDigitC
  if d.isEmpty then s
  else
    let r2 := r.drop d.length
    let w := r2.takeWhile isWS
    if w.isEmpty then s else ((r2.drop w.length).reverse)

/-- The function `baseName(deviceName)` of the utility module: empty on falsy
input, otherwise trim, lowercase, strip a trailing `\s+\d+` suffix. -/
def baseName (deviceName : Str) : Str :=
  if deviceName.isEmpty then []
  else stripTrailingNum (jsLower (jsTrim deviceName))

/-- Does the string end in one-or-more digits immediately preceded by
one-or-more whitespace characters (i.e. does `/\s+\d+$/` match)? -/
def endsWithWsDigits (s : Str) : Bool :=
  let r := s.reverse
  let d := r.takeWhile isDigitC
  !d.isEmpty && !((r.drop d.length).takeWhile isWS).isEmpty

/-- One client-side MIDI source: `{ id, label, channel }`. -/
structure Source where
  id : Str
  label : Str
  channel : Nat
deriving DecidableEq, Repr

/-- Lookup `obj[k]` in a JS object modelled as an association list. -/
def getAssoc {κ ν : Type} [DecidableEq κ] (k : κ) : List (κ × ν) → Option ν
  | [] => none
  | (k', v) :: rest => if k' = k then some v else getAssoc k rest

/-- Assignment `obj[k] = v`: replace in place, or append as the newest
own property. -/
def setAssoc {κ ν : Type} [DecidableEq κ] (k : κ) (v : ν) : List (κ × ν) → List (κ × ν)
  | [] => [(k, v)]
  | (k', v') :: rest => if k' = k then (k, v) :: rest else (k', v') :: setAssoc k v rest

/-- The group `byChannel[ch]` built by `findChannelConflicts`: the
sources pushed for channel `ch`, in list order. -/
def channelGroup (sources : List Source) (ch : Nat) : List Source :=
  sources.filter (fun s => s.channel == ch)

/-- The keys of the `byChannel` object.  Integer-like keys of a JS
object enumerate in ascending numeric order, so the distinct channels
are sorted ascending. -/
def channelKeys (sources : List Source) : List Nat :=
  List.insertionSort (fun a b => a ≤ b) (sources.map (fun s => s.channel)).dedup

/-- Model of `findChannelConflicts(sources)`: group the sources by channel and
keep (in `Object.entries` order) the channels whose group contains at
least two distinct `baseName` values. -/
def findChannelConflicts (sources : List Source) : List (Nat × List Source) :=
  (channelKeys sources).filterMap (fun ch =>
    if 1 < (((channelGroup sources ch).map (fun d => baseName d.label)).dedup).length
    then some (ch, channelGroup sources ch) else none)

/-- Result record of `getConflictSummary(sources)`. -/
structure ConflictSummary where
  hasConflicts : Bool
  conflictCount : Nat
  deviceCount : Nat
  conflicts : List (Nat × List Source)
deriving DecidableEq, Repr

/-- Model of `getConflictSummary(sources)`: wrap `findChannelConflicts` with the
number of colliding channels and the total of the group sizes. -/
def getConflictSummary (sources : List Source) : ConflictSummary :=
  let conflicts := findChannelConflicts sources
  { hasConflicts := decide (0 < conflicts.length)
    conflictCount := conflicts.length
    deviceCount := conflicts.foldl (fun sum p => sum + p.2.length) 0
    conflicts := conflicts }

/-- The excluded source's label in `isChannelAvailable`:
`sources.find(x => x.id === excludeSourceId)?.label || ''`
(with `excludeSourceId` possibly `null`). -/
def excludedLabel (sources : List Source) (excludeSourceId : Option Str) : Str :=
  match excludeSourceId with
  | none => []
  | some e =>
    match sources.find? (fun x => x.id == e) with
    | some x => x.label
    | none => []

/-- Is the source distinct from the excluded id (`s.id !== excludeSourceId`;
a string is never `===` to `null`)? -/
def notExcluded (s : Source) (excludeSourceId : Option Str) : Bool :=
  match excludeSourceId with
  | none => true
  | some e => !(s.id == e)

/-- Model of `isChannelAvailable(sources, channel, excludeSourceId)`. -/
def isChannelAvailable (sources : List Source) (channel : Nat)
    (excludeSourceId : Option Str) : Bool :=
  !(sources.any (fun s =>
    s.channel == channel &&
    notExcluded s excludeSourceId &&
    !(baseName s.label == baseName (excludedLabel sources excludeSourceId))))

/-- Model of `getNextAvailableChannel(sources, preferredChannel)`. -/
def getNextAvailableChannel (sources : List Source) (preferredChannel : Nat) : Nat :=
  let usedChannels := sources.map (fun s => s.channel)
  if usedChannels.contains preferredChannel then
    match (List.range' 1 16).find? (fun ch => !(usedChannels.contains ch)) with
    | some ch => ch
    | none => preferredChannel
  else preferredChannel

/-! ## Config persistence (`loadConfig`) -/

/-- A JSON value, as produced by a successful `JSON.parse`. -/
inductive JSON where
  | null : JSON
  | bool (b : Bool) : JSON
  | num (n : Int) : JSON
  | str (s : Str) : JSON
  | arr (elems : List JSON) : JSON
  | obj (fields : List (Str × JSON)) : JSON

/-- The observable content of `localStorage.getItem('midimachine_config')`
composed with `JSON.parse`: the key can be absent (`null`), hold the
empty string (falsy, so never parsed), hold a string on which
`JSON.parse` throws, or hold a string parsing to a JSON value. -/
inductive StoredValue where
  | absent : StoredValue
  | emptyStr : StoredValue
  | unparseable : StoredValue
  | parsesTo (j : JSON) : StoredValue

/-- The default config object `{ channelMap: {}, renames: {}, udpEnabled: true }`. -/
def defaultConfig : JSON :=
  JSON.obj [(strCodes "channelMap", JSON.obj []),
            (strCodes "renames", JSON.obj []),
            (strCodes "udpEnabled", JSON.bool true)]

/-- Model of `loadConfig()`: return the parsed stored value when the stored
string is truthy and parses; on absence, emptiness, or a parse
exception fall back to the default object. -/
def loadConfig : StoredValue → JSON
  | StoredValue.parsesTo j => j
  | _ => defaultConfig

/-- Modelled from the spec: a JSON value "matching the Config shape"
`{ channelMap: base→channel, renames: base→string, udpEnabled: bool }`
(the code itself contains no such shape check). -/
def isConfigShape : JSON → Bool
  | JSON.obj fields =>
    (match getAssoc (strCodes "channelMap") fields with
     | some (JSON.obj _) => true
     | _ => false) &&
    (match getAssoc (strCodes "renames") fields with
     | some (JSON.obj _) => true
     | _ => false) &&
    (match getAssoc (strCodes "udpEnabled") fields with
     | some (JSON.bool _) => true
     | _ => false)
  | _ => false

/-! ## Source creation and channel edits -/

/-- Code points of the decimal representation of `n`, for the template
literal interpolation of a number. -/
def natCodes (n : Nat) : Str := (Nat.toDigits 10 n).map Char.toNat

/-- The source id `` `${deviceName}_ch${channel}` ``. -/
def sourceIdOf (deviceName : Str) (channel : Nat) : Str :=
  deviceName ++ strCodes "_ch" ++ natCodes channel

/-- Model of `handleIncomingMidi` (config-aware variant): on a `{deviceName,
channel}` event, if no source with the derived id exists, append a new
source whose channel is the remembered `config.channelMap[baseName
(deviceName)]` when defined, else the event's channel. -/
def handleIncomingMidi (channelMap : List (Str × Nat)) (sources : List Source)
    (deviceName : Str) (channel : Nat) : List Source :=
  let sourceId := sourceIdOf deviceName channel
  if sources.any (fun s => s.id == sourceId) then sources
  else
    let base := baseName deviceName
    let finalChannel :=
      match getAssoc base channelMap with
      | some c => c
      | none => channel
    sources ++ [{ id := sourceId, label := deviceName, channel := finalChannel }]

/-- Model of `saveChannel` from the channel-edit box: `parseInt(tempChannel)`
(modelled by its result, `none` for `NaN`) is forwarded to
`onChannelChange` only when it lies in `[1,16]`; the returned value is
the channel passed on, if any. -/
def saveChannel (parsed : Option Int) : Option Int :=
  match parsed with
  | some chan => if 1 ≤ chan && chan ≤ 16 then some chan else none
  | none => none

/-- Model of `updateSourceChannel(sourceId, newChannel)`: set the channel of the
matching source, leaving every other source unchanged. -/
def updateSourceChannel (sources : List Source) (sourceId : Str)
    (newChannel : Nat) : List Source :=
  sources.map (fun s => if s.id == sourceId then { s with channel := newChannel } else s)

/-- All sources have channels in `[1,16]`. -/
def channelsInRange (sources : List Source) : Prop :=
  ∀ s ∈ sources, 1 ≤ s.channel ∧ s.channel ≤ 16

/-! ## Relay server: store and inbound handler -/

/-- The `cc → value` object for one channel of one device. -/
abbrev CCMap := List (Nat × Nat)

/-- The `channel → (cc → value)` object for one device. -/
abbrev ChanMap := List (Nat × CCMap)

/-- The server store's `state.devices` object. -/
abbrev DevMap := List (Str × ChanMap)

/-- The server's in-memory store `{ devices }`. -/
structure Store where
  devices : DevMap
deriving DecidableEq, Repr

/-- Model of `updateCC(deviceName, channel, cc, value)`: create the missing
nesting levels, then assign `state.devices[deviceName][channel][cc] = value`. -/
def updateCC (st : Store) (deviceName : Str) (channel cc value : Nat) : Store :=
  let chanMap := (getAssoc deviceName st.devices).getD []
  let ccMap := (getAssoc channel chanMap).getD []
  { devices := setAssoc deviceName (setAssoc channel (setAssoc cc value ccMap) chanMap) st.devices }

/-- Read `getState().devices[deviceName][channel][cc]` (`none` when any
level is absent). -/
def getCC (st : Store) (deviceName : Str) (channel cc : Nat) : Option Nat :=
  match getAssoc deviceName st.devices with
  | none => none
  | some chanMap =>
    match getAssoc channel chanMap with
    | none => none
    | some ccMap => getAssoc cc ccMap

/-- An inbound `midi:client:message` payload; `none` models a missing
(`undefined`) field. -/
structure MidiPayload where
  deviceName : Option Str
  channel : Option Nat
  cc : Option Nat
  value : Option Nat
deriving DecidableEq, Repr

/-- A `midi:update` event emitted with `io.emit` (to all connected
clients, the sender included). -/
structure Emitted where
  deviceName : Str
  channel : Nat
  cc : Nat
  value : Nat
deriving DecidableEq, Repr

/-- Model of `handleClientMidi(data, io)`: return early when `!deviceName`
(missing or empty string) or `channel`, `cc` or `value` is `undefined`;
otherwise update the store and emit one `midi:update` with the same
tuple.  The result pairs the store after the call with the list of
events emitted. -/
def handleClientMidi (st : Store) (data : MidiPayload) : Store × List Emitted :=
  match data.deviceName, data.channel, data.cc, data.value with
  | some dn, some ch, some cc, some v =>
    if dn.isEmpty then (st, [])
    else (updateCC st dn ch cc v, [{ deviceName := dn, channel := ch, cc := cc, value := v }])
  | _, _, _, _ => (st, [])

/-! ## Helper lemmas: strings -/

/-- The head of the list, when present, fails `p`. -/
def headNot (p : Nat → Bool) (l : Str) : Prop :=
  ∀ c, l.head? = some c → p c = false

theorem headNot_nil {p : Nat → Bool} : headNot p [] := by
  intro c h; cases h

theorem dropWhile_eq_self_of_headNot {p : Nat → Bool} {l : Str}
    (h : headNot p l) : l.dropWhile p = l := by
  cases l with
  | nil => rfl
  | cons a t =>
    have ha : p a = false := h a rfl
    simp [List.dropWhile_cons, ha]

theorem headNot_dropWhile (p : Nat → Bool) (l : Str) : headNot p (l.dropWhile p) := by
  intro c hc
  have := List.head?_dropWhile_not p l
  rw [hc] at this
  exact this

theorem headNot_take {p : Nat → Bool} {l : Str} (h : headNot p l) (m : Nat) :
    headNot p (l.take m) := by
  intro c hc
  cases l with
  | nil => simp at hc
  | cons a t =>
    cases m with
    | zero => simp at hc
    | succ m' =>
      simp [List.take_succ_cons] at hc
      exact hc ▸ h a rfl

/-- Dropping past the `takeWhile` prefix is `dropWhile`. -/
theorem drop_length_takeWhile (p : Nat → Bool) :
    ∀ l : Str, l.drop (l.takeWhile p).length = l.dropWhile p
  | [] => rfl
  | a :: t => by
    by_cases h : p a = true
    · simp [List.takeWhile_cons, List.dropWhile_cons, h, drop_length_takeWhile p t]
    · simp [List.takeWhile_cons, List.dropWhile_cons, h]

/-- The function `stripTrailingNum` returns a `take`-prefix of its input. -/
theorem stripTrailingNum_eq_take (s : Str) :
    ∃ m, stripTrailingNum s = s.take m := by
  unfold stripTrailingNum
  by_cases hd : (s.reverse.takeWhile isDigitC).isEmpty
  · exact ⟨s.length, by simp [hd]⟩
  · by_cases hw : ((s.reverse.drop (s.reverse.takeWhile isDigitC).length).takeWhile isWS).isEmpty
    · exact ⟨s.length, by simp [hd, hw]⟩
    · refine ⟨s.length - (((s.reverse.drop (s.reverse.takeWhile isDigitC).length).takeWhile isWS).length +
        (s.reverse.takeWhile isDigitC).length), ?_⟩
      simp only [hd, hw, if_neg, Bool.false_eq_true, not_false_eq_true]
      rw [List.drop_drop, List.drop_reverse, List.reverse_reverse]
      congr 1
      omega

theorem headNot_stripTrailingNum {p : Nat → Bool} {s : Str} (h : headNot p s) :
    headNot p (stripTrailingNum s) := by
  obtain ⟨m, hm⟩ := stripTrailingNum_eq_take s
  rw [hm]
  exact headNot_take h m

/-- If the input does not end in whitespace (head of the reverse), the
output of `stripTrailingNum` does not either. -/
theorem headNot_reverse_stripTrailingNum {s : Str}
    (h : headNot isWS s.reverse) : headNot isWS (stripTrailingNum s).reverse := by
  unfold stripTrailingNum
  by_cases hd : (s.reverse.takeWhile isDigitC).isEmpty
  · simpa [hd] using h
  · by_cases hw : ((s.reverse.drop (s.reverse.takeWhile isDigitC).length).takeWhile isWS).isEmpty
    · simpa [hd, hw] using h
    · simp only [hd, hw, Bool.false_eq_true, if_neg, not_false_eq_true, List.reverse_reverse]
      rw [drop_length_takeWhile]
      exact headNot_dropWhile isWS _

/-- The function `jsTrim` is the identity on strings with no leading and no trailing
whitespace. -/
theorem jsTrim_eq_self {s : Str} (h1 : headNot isWS s) (h2 : headNot isWS s.reverse) :
    jsTrim s = s := by
  unfold jsTrim
  rw [dropWhile_eq_self_of_headNot h1, dropWhile_eq_self_of_headNot h2,
    List.reverse_reverse]

theorem headNot_jsTrim (s : Str) : headNot isWS (jsTrim s) := by
  unfold jsTrim
  intro c hc
  obtain ⟨m, hm⟩ : ∃ m, ((s.dropWhile isWS).reverse.dropWhile isWS).reverse
      = (s.dropWhile isWS).take m := by
    refine ⟨(s.dropWhile isWS).length - ((s.dropWhile isWS).reverse.takeWhile isWS).length, ?_⟩
    rw [← drop_length_takeWhile isWS (s.dropWhile isWS).reverse,
      List.drop_reverse, List.reverse_reverse]
  rw [hm] at hc
  exact headNot_take (headNot_dropWhile isWS s) m c hc

theorem headNot_reverse_jsTrim (s : Str) : headNot isWS (jsTrim s).reverse := by
  unfold jsTrim
  rw [List.reverse_reverse]
  exact headNot_dropWhile isWS _

theorem lowerC_idem (c : Nat) : lowerC (lowerC c) = lowerC c := by
  unfold lowerC
  by_cases h : (65 ≤ c && c ≤ 90) = true
  · have hc : 65 ≤ c ∧ c ≤ 90 := by simpa using h
    have h' : ¬((65 ≤ c + 32 && c + 32 ≤ 90) = true) := by
      simp only [Bool.and_eq_true, decide_eq_true_eq, not_and, not_le]
      omega
    rw [if_pos h, if_neg h']
  · rw [if_neg h, if_neg h]

theorem isWS_lowerC (c : Nat) : isWS (lowerC c) = isWS c := by
  unfold lowerC
  by_cases h : (65 ≤ c && c ≤ 90) = true
  · have hc : 65 ≤ c ∧ c ≤ 90 := by simpa using h
    rw [if_pos h]
    have h1 : isWS (c + 32) = false := by
      unfold isWS
      simp only [Bool.or_eq_false_iff, beq_eq_false_iff_ne, ne_eq]
      omega
    have h2 : isWS c = false := by
      unfold isWS
      simp only [Bool.or_eq_false_iff, beq_eq_false_iff_ne, ne_eq]
      omega
    rw [h1, h2]
  · rw [if_neg h]

theorem jsLower_idem (s : Str) : jsLower (jsLower s) = jsLower s := by
  unfold jsLower
  rw [List.map_map]
  exact List.map_congr_left (fun c _ => lowerC_idem c)

theorem headNot_isWS_jsLower {s : Str} (h : headNot isWS s) :
    headNot isWS (jsLower s) := by
  intro c hc
  cases s with
  | nil => cases hc
  | cons a t =>
    simp only [jsLower, List.map_cons, List.head?_cons, Option.some.injEq] at hc
    rw [← hc, isWS_lowerC]
    exact h a rfl

theorem headNot_isWS_jsLower_reverse {s : Str} (h : headNot isWS s.reverse) :
    headNot isWS (jsLower s).reverse := by
  intro c hc
  rw [show (jsLower s).reverse = jsLower s.reverse by simp [jsLower, List.map_reverse]] at hc
  exact headNot_isWS_jsLower h c hc

/-- When `/\s+\d+$/` does not match, `replace` leaves the string alone. -/
theorem stripTrailingNum_eq_self {s : Str} (h : endsWithWsDigits s = false) :
    stripTrailingNum s = s := by
  unfold endsWithWsDigits at h
  unfold stripTrailingNum
  by_cases hd : (s.reverse.takeWhile isDigitC).isEmpty
  · simp [hd]
  · by_cases hw : ((s.reverse.drop (s.reverse.takeWhile isDigitC).length).takeWhile isWS).isEmpty
    · simp [hd, hw]
    · exfalso
      simp only [Bool.and_eq_false_iff, Bool.not_eq_false'] at h
      rcases h with h | h
      · exact hd h
      · exact hw h

/-- The map `jsLower` fixes the output of `stripTrailingNum` on lowered input. -/
theorem jsLower_stripTrailingNum {s : Str} (h : jsLower s = s) :
    jsLower (stripTrailingNum s) = stripTrailingNum s := by
  obtain ⟨m, hm⟩ := stripTrailingNum_eq_take s
  rw [hm, jsLower, List.map_take, ← jsLower]
  rw [h]

/-- The output of `baseName` is already trimmed and lowercased. -/
theorem baseName_trimmed_lowered (s : Str) :
    jsTrim (baseName s) = baseName s ∧ jsLower (baseName s) = baseName s := by
  unfold baseName
  by_cases he : s.isEmpty
  · simp [he, jsTrim, jsLower]
  · simp only [he, Bool.false_eq_true, if_neg, not_false_eq_true]
    constructor
    · refine jsTrim_eq_self ?_ ?_
      · exact headNot_stripTrailingNum (headNot_isWS_jsLower (headNot_jsTrim s))
      · exact headNot_reverse_stripTrailingNum (headNot_isWS_jsLower_reverse (headNot_reverse_jsTrim s))
    · exact jsLower_stripTrailingNum (jsLower_idem (jsTrim s))

/-- The function `baseName` fixes any trimmed, lowered string the suffix pattern
does not match. -/
theorem baseName_fixed {t : Str} (h1 : jsTrim t = t) (h2 : jsLower t = t)
    (h3 : endsWithWsDigits t = false) : baseName t = t := by
  unfold baseName
  by_cases he : t.isEmpty
  · simp [he, List.isEmpty_iff.mp he]
  · simp only [he, Bool.false_eq_true, if_neg, not_false_eq_true]
    rw [h1, h2, stripTrailingNum_eq_self h3]

/-- When `/\s+\d+$/` does match, `replace` removes a nonempty suffix,
so the result is strictly shorter. -/
theorem stripTrailingNum_length_lt {t : Str} (h : endsWithWsDigits t = true) :
    (stripTrailingNum t).length < t.length := by
  unfold endsWithWsDigits at h
  rw [Bool.and_eq_true, Bool.not_eq_true', Bool.not_eq_true'] at h
  obtain ⟨hd, hw⟩ := h
  have hd1 : 0 < (t.reverse.takeWhile isDigitC).length :=
    List.length_pos.mpr (fun he => by rw [he] at hd; cases hd)
  have hdt : (t.reverse.takeWhile isDigitC).length ≤ t.length := by
    have := (List.takeWhile_prefix (l := t.reverse) isDigitC).length_le
    rwa [List.length_reverse] at this
  unfold stripTrailingNum
  rw [if_neg (fun hh => by rw [hd] at hh; cases hh),
    if_neg (fun hh => by rw [hw] at hh; cases hh)]
  rw [List.length_reverse, List.length_drop, List.length_drop, List.length_reverse]
  omega

/-- On a nonempty, trimmed, lowered string, `baseName` is just the
suffix strip. -/
theorem baseName_eq_strip {t : Str} (h1 : jsTrim t = t) (h2 : jsLower t = t)
    (hne : t.isEmpty = false) : baseName t = stripTrailingNum t := by
  unfold baseName
  rw [if_neg (fun hh => by rw [hne] at hh; cases hh), h1, h2]

/-- A `baseName` output that still ends in whitespace+digits is
stripped further by a second application. -/
theorem baseName_not_fixed_of_endsWith {s : Str}
    (h : endsWithWsDigits (baseName s) = true) :
    baseName (baseName s) ≠ baseName s := by
  obtain ⟨h1, h2⟩ := baseName_trimmed_lowered s
  have hne : (baseName s).isEmpty = false := by
    cases he : baseName s with
    | nil => rw [he] at h; cases h
    | cons a t => rfl
  have hlt : (baseName (baseName s)).length < (baseName s).length := by
    rw [baseName_eq_strip h1 h2 hne]
    exact stripTrailingNum_length_lt h
  intro heq
  rw [heq] at hlt
  exact Nat.lt_irrefl _ hlt

/-! ## Claim C1 -/

/-- C1, counterexample: `baseName` is not idempotent on every string.
On `"a 1 2"` the regex `\s+\d+$` removes only the last space+digits
group (leftmost match is `" 2"`), so the output `"a 1"` still matches
and a second application strips it further to `"a"`. -/
theorem baseName_not_idempotent_cex :
    baseName (baseName (strCodes "a 1 2")) ≠ baseName (strCodes "a 1 2") := by
  decide

/-- C1, amended: `baseName (baseName s) = baseName s` holds exactly
when the first application's output does not itself still end in a
whitespace-plus-digits suffix (equivalently, for strings with at most
one trailing space+digits group): re-applying `baseName` to such an
already-normalized output returns it unchanged, and whenever the
output still ends in whitespace+digits a second application strips it
further, so idempotence fails. -/
theorem baseName_idem_iff (s : Str) :
    baseName (baseName s) = baseName s ↔ endsWithWsDigits (baseName s) = false := by
  constructor
  · intro heq
    by_cases he : endsWithWsDigits (baseName s) = true
    · exact absurd heq (baseName_not_fixed_of_endsWith he)
    · exact Bool.eq_false_iff.mpr he
  · intro h
    obtain ⟨h1, h2⟩ := baseName_trimmed_lowered s
    exact baseName_fixed h1 h2 h

/-- Witness for C1 at `"Launchkey 2"`: one trailing group, idempotent;
and the iff's forward direction refutes idempotence on `"a 1 2"`. -/
theorem baseName_idem_iff_witness :
    baseName (baseName (strCodes "Launchkey 2")) = baseName (strCodes "Launchkey 2") ∧
    endsWithWsDigits (baseName (strCodes "a 1 2")) = true :=
  ⟨(baseName_idem_iff (strCodes "Launchkey 2")).mpr (by decide), by decide⟩

/-! ## Claim C6 -/

/-- C6: `baseName` trims, lowercases, and removes one trailing
whitespace-plus-digits suffix: `"Launchkey MK4 2" ↦ "launchkey mk4"`,
`"Arturia" ↦ "arturia"`, the empty (falsy) string maps to the empty
string, and any string that the anchored suffix pattern does not match
after trimming and lowercasing — e.g. trailing digits not preceded by
whitespace, as in `"Port2"` — keeps its suffix intact. -/
theorem baseName_behavior :
    baseName (strCodes "Launchkey MK4 2") = strCodes "launchkey mk4" ∧
    baseName (strCodes "Arturia") = strCodes "arturia" ∧
    baseName (strCodes "") = strCodes "" ∧
    (∀ s : Str, endsWithWsDigits (jsLower (jsTrim s)) = false →
      baseName s = jsLower (jsTrim s)) := by
  refine ⟨by decide, by decide, by decide, ?_⟩
  intro s h
  unfold baseName
  by_cases he : s.isEmpty
  · simp [List.isEmpty_iff.mp he, jsTrim, jsLower]
  · simp only [he, Bool.false_eq_true, if_neg, not_false_eq_true]
    exact stripTrailingNum_eq_self h

/-- Witness for C6 at `"Port2"`: the suffix stays intact. -/
theorem baseName_behavior_witness :
    baseName (strCodes "Port2") = strCodes "port2" :=
  (baseName_behavior.2.2.2 (strCodes "Port2") (by decide)).trans (by decide)

/-! ## Helper lemmas: counting distinct values, channel keys -/

/-- The `Set` of JS: at most one distinct value iff all values agree. -/
theorem dedup_length_le_one_iff {α : Type} [DecidableEq α] (l : List α) :
    l.dedup.length ≤ 1 ↔ ∀ a ∈ l, ∀ b ∈ l, a = b := by
  constructor
  · intro h a ha b hb
    rw [← List.mem_dedup] at ha hb
    cases hd : l.dedup with
    | nil => rw [hd] at ha; cases ha
    | cons x t =>
      rw [hd] at ha hb h
      have ht : t = [] := by
        cases t with
        | nil => rfl
        | cons y u => simp at h
      subst ht
      rw [List.mem_singleton] at ha hb
      rw [ha, hb]
  · intro h
    cases hd : l.dedup with
    | nil => simp
    | cons x t =>
      cases t with
      | nil => simp
      | cons y u =>
        exfalso
        have hnd : l.dedup.Nodup := l.nodup_dedup
        rw [hd] at hnd
        have hx : x ∈ l := by
          rw [← List.mem_dedup, hd]; exact List.mem_cons_self x _
        have hy : y ∈ l := by
          rw [← List.mem_dedup, hd]; exact List.mem_cons_of_mem x (List.mem_cons_self y u)
        have hxy := h x hx y hy
        rw [List.nodup_cons] at hnd
        exact hnd.1 (hxy ▸ List.mem_cons_self y u)

/-- There are two or more distinct images (`new Set(l.map(f)).size > 1`)
iff two elements have different images. -/
theorem one_lt_dedup_map_length_iff {α β : Type} [DecidableEq β] (f : α → β) (l : List α) :
    1 < ((l.map f).dedup).length ↔ ∃ a ∈ l, ∃ b ∈ l, f a ≠ f b := by
  rw [← not_le, dedup_length_le_one_iff]
  push_neg
  constructor
  · rintro ⟨x, hx, y, hy, hxy⟩
    obtain ⟨a, ha, rfl⟩ := List.mem_map.mp hx
    obtain ⟨b, hb, rfl⟩ := List.mem_map.mp hy
    exact ⟨a, ha, b, hb, hxy⟩
  · rintro ⟨a, ha, b, hb, hab⟩
    exact ⟨f a, List.mem_map_of_mem f ha, f b, List.mem_map_of_mem f hb, hab⟩

theorem mem_channelKeys_iff (sources : List Source) (ch : Nat) :
    ch ∈ channelKeys sources ↔ ch ∈ sources.map (fun s => s.channel) := by
  unfold channelKeys
  rw [(List.perm_insertionSort _ _).mem_iff, List.mem_dedup]

theorem channelKeys_nodup (sources : List Source) : (channelKeys sources).Nodup := by
  unfold channelKeys
  exact (List.perm_insertionSort _ _).nodup_iff.mpr (List.nodup_dedup _)

theorem mem_channelGroup_iff (sources : List Source) (ch : Nat) (s : Source) :
    s ∈ channelGroup sources ch ↔ s ∈ sources ∧ s.channel = ch := by
  unfold channelGroup
  rw [List.mem_filter]
  simp

/-- Membership characterization of the conflict map. -/
theorem mem_findChannelConflicts_iff (sources : List Source) (ch : Nat) (g : List Source) :
    (ch, g) ∈ findChannelConflicts sources ↔
      g = channelGroup sources ch ∧
      ∃ a ∈ channelGroup sources ch, ∃ b ∈ channelGroup sources ch,
        baseName a.label ≠ baseName b.label := by
  unfold findChannelConflicts
  rw [List.mem_filterMap]
  constructor
  · rintro ⟨ch', hch', hf⟩
    by_cases hcond : 1 < (((channelGroup sources ch').map (fun d => baseName d.label)).dedup).length
    · rw [if_pos hcond] at hf
      rw [Option.some.injEq, Prod.mk.injEq] at hf
      obtain ⟨rfl, rfl⟩ := hf
      exact ⟨rfl, (one_lt_dedup_map_length_iff _ _).mp hcond⟩
    · rw [if_neg hcond] at hf
      cases hf
  · rintro ⟨rfl, hex⟩
    obtain ⟨a, ha, b, hb, hne⟩ := hex
    refine ⟨ch, ?_, ?_⟩
    · rw [mem_channelKeys_iff]
      have := (mem_channelGroup_iff sources ch a).mp ha
      exact List.mem_map.mpr ⟨a, this.1, this.2⟩
    · rw [if_pos ((one_lt_dedup_map_length_iff _ _).mpr ⟨a, ha, b, hb, hne⟩)]

/-! ## Claim C2 -/

/-- C2: (1) when all sources share one base name, `findChannelConflicts`
is empty no matter how channels collide; (2) two sources on channel 1
with distinct base names yield exactly the single entry `{1: [A, B]}`;
(3) in general a channel has an entry iff its group contains two
sources with different base names (set of distinct base names has
size at least 2). -/
theorem findChannelConflicts_spec :
    (∀ sources : List Source,
      (∀ s ∈ sources, ∀ t ∈ sources, baseName s.label = baseName t.label) →
      findChannelConflicts sources = []) ∧
    (∀ A B : Source, A.channel = 1 → B.channel = 1 →
      baseName A.label ≠ baseName B.label →
      findChannelConflicts [A, B] = [(1, [A, B])]) ∧
    (∀ (sources : List Source) (ch : Nat),
      (∃ g, (ch, g) ∈ findChannelConflicts sources) ↔
      ∃ a ∈ channelGroup sources ch, ∃ b ∈ channelGroup sources ch,
        baseName a.label ≠ baseName b.label) := by
  refine ⟨?_, ?_, ?_⟩
  · intro sources h
    unfold findChannelConflicts
    rw [List.filterMap_eq_nil_iff]
    intro ch _
    rw [if_neg]
    intro hcond
    obtain ⟨a, ha, b, hb, hne⟩ := (one_lt_dedup_map_length_iff _ _).mp hcond
    exact hne (h a ((mem_channelGroup_iff sources ch a).mp ha).1
      b ((mem_channelGroup_iff sources ch b).mp hb).1)
  · intro A B hA hB hne
    have hgroup : channelGroup [A, B] 1 = [A, B] := by
      unfold channelGroup
      simp [List.filter, hA, hB]
    have hkeys : channelKeys [A, B] = [1] := by
      unfold channelKeys
      simp only [List.map_cons, List.map_nil, hA, hB]
      rw [List.dedup_cons_of_mem (List.mem_singleton.mpr rfl)]
      rw [List.dedup_cons_of_not_mem (List.not_mem_nil 1), List.dedup_nil]
      simp [List.insertionSort, List.orderedInsert]
    have hcond : 1 < ((([A, B] : List Source).map (fun d => baseName d.label)).dedup).length := by
      simp only [List.map_cons, List.map_nil]
      rw [List.dedup_cons_of_not_mem (by simpa using hne),
        List.dedup_cons_of_not_mem (List.not_mem_nil _), List.dedup_nil]
      simp
    unfold findChannelConflicts
    rw [hkeys]
    simp only [List.filterMap_cons, List.filterMap_nil, hgroup, if_pos hcond]
  · intro sources ch
    constructor
    · rintro ⟨g, hg⟩
      exact ((mem_findChannelConflicts_iff sources ch g).mp hg).2
    · intro h
      exact ⟨channelGroup sources ch,
        (mem_findChannelConflicts_iff sources ch _).mpr ⟨rfl, h⟩⟩

/-- Witness for C2 at two concrete single-channel sources. -/
theorem findChannelConflicts_spec_witness :
    findChannelConflicts
      [⟨strCodes "Korg_ch1", strCodes "Korg", 1⟩, ⟨strCodes "Roland_ch1", strCodes "Roland", 1⟩] =
    [(1, [⟨strCodes "Korg_ch1", strCodes "Korg", 1⟩, ⟨strCodes "Roland_ch1", strCodes "Roland", 1⟩])] :=
  findChannelConflicts_spec.2.1 _ _ rfl rfl (by decide)

/-! ## Claim C3 -/

/-- C3, counterexample: a stored value that parses but does not match
the Config shape (here the legacy/malformed record `42`) is returned
as-is by `loadConfig` instead of the claimed default object — the
fallback triggers only when `JSON.parse` throws or the key is absent
or empty, not on a shape mismatch. -/
theorem loadConfig_legacy_passthrough_cex :
    loadConfig (StoredValue.parsesTo (JSON.num 42)) ≠ defaultConfig ∧
    isConfigShape (JSON.num 42) = false := by
  constructor
  · intro h
    simp only [loadConfig, defaultConfig] at h
    exact JSON.noConfusion h
  · rfl

/-- C3, amended: `loadConfig` is total (never throws); on an absent
key, an empty stored string, or a string `JSON.parse` rejects it
returns exactly the default `{ channelMap: {}, renames: {},
udpEnabled: true }`; but any stored string that parses is returned
unchanged, even when the parsed value does not match the Config
shape (there is no shape validation or migration). -/
theorem loadConfig_default_and_passthrough :
    loadConfig StoredValue.absent = defaultConfig ∧
    loadConfig StoredValue.emptyStr = defaultConfig ∧
    loadConfig StoredValue.unparseable = defaultConfig ∧
    (∀ j : JSON, loadConfig (StoredValue.parsesTo j) = j) :=
  ⟨rfl, rfl, rfl, fun _ => rfl⟩

/-! ## Helper lemmas: first hit of `find?` on a range -/

/-- Everything below the channel `find?` returns on a `range'` scan
fails the predicate. -/
theorem find?_range'_forall_lt {p : Nat → Bool} :
    ∀ (s n r : Nat), (List.range' s n).find? p = some r →
      ∀ c, s ≤ c → c < r → p c = false := by
  intro s n
  induction n generalizing s with
  | zero => intro r h; cases h
  | succ n ih =>
    intro r h c hc1 hc2
    rw [List.range'_succ] at h
    by_cases hs : p s = true
    · rw [List.find?_cons_of_pos _ hs] at h
      injection h with h
      exact absurd (Nat.lt_of_le_of_lt hc1 hc2) (h ▸ Nat.lt_irrefl s)
    · rw [List.find?_cons_of_neg _ hs] at h
      by_cases hcs : c = s
      · subst hcs
        exact Bool.not_eq_true _ ▸ (by simpa using hs)
      · exact ih (s + 1) r h c (by omega) hc2

theorem contains_nat_iff (l : List Nat) (c : Nat) : l.contains c = true ↔ c ∈ l :=
  List.elem_iff

/-! ## Claim C5 -/

/-- C5: `getNextAvailableChannel` returns the preferred channel when no
source uses it; otherwise the lowest channel of 1..16 not used by any
source; and the preferred channel again when all sixteen are used.
Concretely `getNextAvailableChannel([], 5) = 5` and
`getNextAvailableChannel([{ch:1}], 1) = 2`. -/
theorem getNextAvailableChannel_spec :
    (∀ (sources : List Source) (pc : Nat),
      (∀ s ∈ sources, s.channel ≠ pc) → getNextAvailableChannel sources pc = pc) ∧
    (∀ (sources : List Source) (pc : Nat),
      (∃ s ∈ sources, s.channel = pc) →
      (∃ ch, 1 ≤ ch ∧ ch ≤ 16 ∧ ∀ s ∈ sources, s.channel ≠ ch) →
      1 ≤ getNextAvailableChannel sources pc ∧
      getNextAvailableChannel sources pc ≤ 16 ∧
      (∀ s ∈ sources, s.channel ≠ getNextAvailableChannel sources pc) ∧
      (∀ c, 1 ≤ c → c < getNextAvailableChannel sources pc →
        ∃ s ∈ sources, s.channel = c)) ∧
    (∀ (sources : List Source) (pc : Nat),
      (∀ c, 1 ≤ c → c ≤ 16 → ∃ s ∈ sources, s.channel = c) →
      getNextAvailableChannel sources pc = pc) ∧
    getNextAvailableChannel [] 5 = 5 ∧
    getNextAvailableChannel [⟨strCodes "x_ch1", strCodes "x", 1⟩] 1 = 2 := by
  refine ⟨?_, ?_, ?_, by decide, by decide⟩
  · intro sources pc h
    have hnc : ¬((sources.map (fun s => s.channel)).contains pc = true) := by
      rw [contains_nat_iff, List.mem_map]
      rintro ⟨s, hs, hc⟩
      exact h s hs hc
    simp only [getNextAvailableChannel]
    rw [if_neg hnc]
  · intro sources pc hused hfree
    have hcont : (sources.map (fun s => s.channel)).contains pc = true := by
      rw [contains_nat_iff, List.mem_map]
      obtain ⟨s, hs, hc⟩ := hused
      exact ⟨s, hs, hc⟩
    obtain ⟨ch0, h1, h16, hfr⟩ := hfree
    have hmem : ch0 ∈ List.range' 1 16 := List.mem_range'_1.mpr ⟨h1, by omega⟩
    have hnotmem : ch0 ∉ sources.map (fun s => s.channel) := by
      rw [List.mem_map]
      rintro ⟨s, hs, hc⟩
      exact hfr s hs hc
    have hcf : (sources.map (fun s => s.channel)).contains ch0 = false :=
      Bool.eq_false_iff.mpr (fun h => hnotmem ((contains_nat_iff _ _).mp h))
    cases hfind : (List.range' 1 16).find?
        (fun ch => !((sources.map (fun s => s.channel)).contains ch)) with
    | none =>
      exfalso
      rw [List.find?_eq_none] at hfind
      exact hfind ch0 hmem (by rw [hcf]; rfl)
    | some r =>
      have hrp := List.find?_some hfind
      have hrmem := List.mem_of_find?_eq_some hfind
      rw [List.mem_range'_1] at hrmem
      have hmin := find?_range'_forall_lt 1 16 r hfind
      have hresult : getNextAvailableChannel sources pc = r := by
        simp only [getNextAvailableChannel]
        rw [if_pos hcont, hfind]
      rw [hresult]
      refine ⟨hrmem.1, by omega, ?_, ?_⟩
      · intro s hs hc
        rw [Bool.not_eq_true'] at hrp
        exact absurd ((contains_nat_iff _ _).mpr (List.mem_map.mpr ⟨s, hs, hc⟩))
          (by rw [hrp]; simp)
      · intro c hc1 hc2
        have hpc := hmin c hc1 hc2
        rw [Bool.not_eq_false'] at hpc
        obtain ⟨s, hs, hc⟩ := List.mem_map.mp ((contains_nat_iff _ _).mp hpc)
        exact ⟨s, hs, hc⟩
  · intro sources pc h
    simp only [getNextAvailableChannel]
    by_cases hcont : (sources.map (fun s => s.channel)).contains pc = true
    · rw [if_pos hcont]
      have hfind : (List.range' 1 16).find?
          (fun ch => !((sources.map (fun s => s.channel)).contains ch)) = none := by
        rw [List.find?_eq_none]
        intro x hx hp
        rw [List.mem_range'_1] at hx
        obtain ⟨s, hs, hc⟩ := h x hx.1 (by omega)
        rw [Bool.not_eq_true'] at hp
        exact absurd ((contains_nat_iff _ _).mpr (List.mem_map.mpr ⟨s, hs, hc⟩))
          (by rw [hp]; simp)
      rw [hfind]
    · rw [if_neg hcont]

/-- Witness for C5: the free-channel and scan branches at concrete
inputs. -/
theorem getNextAvailableChannel_spec_witness :
    getNextAvailableChannel [⟨strCodes "a_ch3", strCodes "a", 3⟩] 5 = 5 :=
  getNextAvailableChannel_spec.1 _ 5 (by decide)

/-! ## Claim C7 -/

/-- C7: `isChannelAvailable` returns true exactly when every source on
the requested channel other than the excluded one shares the excluded
source's base name — the Conflict Detector's same-instrument
exemption.  When the excluded id is `null` or matches no source, the
compared base name is that of the empty label. -/
theorem isChannelAvailable_iff (sources : List Source) (channel : Nat)
    (excludeSourceId : Option Str) :
    isChannelAvailable sources channel excludeSourceId = true ↔
      ∀ s ∈ sources, s.channel = channel → notExcluded s excludeSourceId = true →
        baseName s.label = baseName (excludedLabel sources excludeSourceId) := by
  unfold isChannelAvailable
  rw [Bool.not_eq_true', List.any_eq_false]
  constructor
  · intro h s hs hch hex
    by_contra hbase
    apply h s hs
    simp only [Bool.and_eq_true, beq_iff_eq, Bool.not_eq_true', beq_eq_false_iff_ne, ne_eq]
    exact ⟨⟨hch, hex⟩, hbase⟩
  · intro h s hs hpred
    simp only [Bool.and_eq_true, beq_iff_eq, Bool.not_eq_true', beq_eq_false_iff_ne, ne_eq] at hpred
    exact hpred.2 (h s hs hpred.1.1 hpred.1.2)

/-- Witness for C7 at the empty source list. -/
theorem isChannelAvailable_iff_witness : isChannelAvailable [] 3 none = true :=
  (isChannelAvailable_iff [] 3 none).mpr (by intro s hs; cases hs)

/-! ## Helper lemmas: summing bucket sizes -/

theorem foldl_add_length (l : List (Nat × List Source)) (n : Nat) :
    l.foldl (fun sum p => sum + p.2.length) n = n + (l.map (fun p => p.2.length)).sum := by
  induction l generalizing n with
  | nil => simp
  | cons p t ih => simp [List.foldl_cons, ih, Nat.add_assoc]

theorem filterMap_ite_eq_map_filter {α β : Type} (P : α → Prop) [DecidablePred P]
    (g : α → β) (l : List α) :
    l.filterMap (fun a => if P a then some (g a) else none) =
      (l.filter (fun a => decide (P a))).map g := by
  induction l with
  | nil => rfl
  | cons a t ih =>
    by_cases h : P a
    · simp [List.filterMap_cons, List.filter_cons, h, ih]
    · simp [List.filterMap_cons, List.filter_cons, h, ih]

theorem any_map_general {α β : Type} (f : α → β) (p : β → Bool) (l : List α) :
    (l.map f).any p = l.any (fun a => p (f a)) := by
  induction l with
  | nil => rfl
  | cons a t ih => simp only [List.map_cons, List.any_cons, ih]

theorem beq_nat_comm (a b : Nat) : (a == b) = (b == a) := by
  by_cases h : a = b
  · rw [h]
  · have h' : ¬(b = a) := fun hb => h hb.symm
    simp [h, h']

theorem length_filter_or (p q : Source → Bool) (l : List Source)
    (h : ∀ s, ¬(p s = true ∧ q s = true)) :
    (l.filter (fun s => p s || q s)).length = (l.filter p).length + (l.filter q).length := by
  induction l with
  | nil => rfl
  | cons a t ih =>
    by_cases hp : p a = true
    · have hq : q a = false := by
        by_cases hq : q a = true
        · exact absurd ⟨hp, hq⟩ (h a)
        · exact Bool.eq_false_iff.mpr hq
      simp [List.filter_cons, hp, hq, ih] <;> omega
    · have hp' : p a = false := Bool.eq_false_iff.mpr hp
      by_cases hq : q a = true
      · simp [List.filter_cons, hp', hq, ih] <;> omega
      · have hq' : q a = false := Bool.eq_false_iff.mpr hq
        simp [List.filter_cons, hp', hq', ih]

/-- Summing per-channel bucket sizes over distinct channels counts each
source at most once: it equals the number of sources whose channel is
among the given keys. -/
theorem sum_group_lengths (l : List Source) :
    ∀ C : List Nat, C.Nodup →
      (C.map (fun ch => (channelGroup l ch).length)).sum =
        (l.filter (fun s => C.any (fun ch => ch == s.channel))).length := by
  intro C
  induction C with
  | nil =>
    intro _
    simp [List.any_nil]
  | cons ch C' ih =>
    intro hnd
    rw [List.nodup_cons] at hnd
    rw [List.map_cons, List.sum_cons, ih hnd.2]
    have hdisj : ∀ s : Source,
        ¬((s.channel == ch) = true ∧ (C'.any (fun c => c == s.channel)) = true) := by
      rintro s ⟨h1, h2⟩
      rw [beq_iff_eq] at h1
      rw [List.any_eq_true] at h2
      obtain ⟨c, hc, hcc⟩ := h2
      rw [beq_iff_eq] at hcc
      rw [hcc, h1] at hc
      exact hnd.1 hc
    have hfc : ∀ s ∈ l, ((ch :: C').any (fun c => c == s.channel)) =
        ((fun s : Source => s.channel == ch) s || (fun s : Source => C'.any (fun c => c == s.channel)) s) := by
      intro s _
      rw [List.any_cons, beq_nat_comm ch s.channel]
    rw [List.filter_congr hfc, length_filter_or _ _ l hdisj]
    unfold channelGroup
    rfl

/-- Rewriting `findChannelConflicts` as a map over its (distinct) conflicting
channel keys. -/
theorem findChannelConflicts_eq_map_filter (sources : List Source) :
    findChannelConflicts sources =
      ((channelKeys sources).filter (fun ch =>
        decide (1 < (((channelGroup sources ch).map (fun d => baseName d.label)).dedup).length))).map
        (fun ch => (ch, channelGroup sources ch)) := by
  unfold findChannelConflicts
  rw [filterMap_ite_eq_map_filter]

/-! ## Claim C8 -/

/-- C8: `getConflictSummary` wraps `findChannelConflicts`:
`conflicts` is exactly the conflict map, `conflictCount` the number of
colliding channels, `hasConflicts` true iff there is at least one, and
`deviceCount` the total number of sources across all colliding
channels — equal to the number of sources whose channel is a colliding
channel, so no source is counted twice. -/
theorem getConflictSummary_spec (sources : List Source) :
    (getConflictSummary sources).conflicts = findChannelConflicts sources ∧
    (getConflictSummary sources).conflictCount = (findChannelConflicts sources).length ∧
    ((getConflictSummary sources).hasConflicts = true ↔ findChannelConflicts sources ≠ []) ∧
    (getConflictSummary sources).deviceCount =
      ((findChannelConflicts sources).map (fun p => p.2.length)).sum ∧
    (getConflictSummary sources).deviceCount =
      (sources.filter (fun s =>
        (findChannelConflicts sources).any (fun p => p.1 == s.channel))).length := by
  refine ⟨rfl, rfl, ?_, ?_, ?_⟩
  · simp only [getConflictSummary, decide_eq_true_eq, List.length_pos]
  · simp only [getConflictSummary]
    rw [foldl_add_length, Nat.zero_add]
  · simp only [getConflictSummary]
    rw [foldl_add_length, Nat.zero_add]
    rw [findChannelConflicts_eq_map_filter, List.map_map]
    have hknd : ((channelKeys sources).filter (fun ch =>
        decide (1 < (((channelGroup sources ch).map (fun d => baseName d.label)).dedup).length))).Nodup :=
      (channelKeys_nodup sources).filter _
    have hsum := sum_group_lengths sources _ hknd
    have hcomp1 : ((fun p : Nat × List Source => p.2.length) ∘
        (fun ch => (ch, channelGroup sources ch))) =
        (fun ch => (channelGroup sources ch).length) := rfl
    rw [hcomp1, hsum]
    congr 1
    apply List.filter_congr
    intro s _
    rw [any_map_general]

/-- Witness for C8 at the empty source list. -/
theorem getConflictSummary_spec_witness : (getConflictSummary []).deviceCount = 0 :=
  (getConflictSummary_spec []).2.2.2.2.trans (by decide)

/-! ## Helper lemmas: JS object assignment -/

theorem getAssoc_mem {κ ν : Type} [DecidableEq κ] {k : κ} {v : ν} :
    ∀ {l : List (κ × ν)}, getAssoc k l = some v → (k, v) ∈ l := by
  intro l
  induction l with
  | nil => intro h; cases h
  | cons p t ih =>
    intro h
    obtain ⟨k', v'⟩ := p
    by_cases hk : k' = k
    · subst hk
      simp [getAssoc] at h
      subst h
      exact List.mem_cons_self _ _
    · simp only [getAssoc, if_neg hk] at h
      exact List.mem_cons_of_mem _ (ih h)

theorem getAssoc_setAssoc_self {κ ν : Type} [DecidableEq κ] (k : κ) (v : ν) :
    ∀ l : List (κ × ν), getAssoc k (setAssoc k v l) = some v
  | [] => by simp [setAssoc, getAssoc]
  | (k', v') :: t => by
    by_cases hk : k' = k
    · simp [setAssoc, getAssoc, hk]
    · simp [setAssoc, getAssoc, hk, getAssoc_setAssoc_self k v t]

theorem getAssoc_setAssoc_ne {κ ν : Type} [DecidableEq κ] {k k' : κ} (v : ν) (hne : k' ≠ k) :
    ∀ l : List (κ × ν), getAssoc k' (setAssoc k v l) = getAssoc k' l
  | [] => by
    simp only [setAssoc, getAssoc]
    rw [if_neg (fun h => hne h.symm)]
  | (k'', v'') :: t => by
    by_cases hk : k'' = k
    · subst hk
      simp only [setAssoc, if_pos rfl, getAssoc]
      rw [if_neg (fun h : k'' = k' => hne (h.symm ▸ rfl)), if_neg (fun h : k'' = k' => hne (h.symm ▸ rfl))]
    · simp only [setAssoc, if_neg hk, getAssoc]
      by_cases hk2 : k'' = k'
      · rw [if_pos hk2, if_pos hk2]
      · rw [if_neg hk2, if_neg hk2]
        exact getAssoc_setAssoc_ne v hne t

/-! ## Claim C10 -/

/-- C10: `updateCC` sets exactly the addressed
`devices[deviceName][channel][cc]` entry to `value`; every other
device, every other channel of the same device, and every other cc on
the same device and channel reads back unchanged. -/
theorem updateCC_frame (st : Store) (dn : Str) (ch cc v : Nat) :
    getCC (updateCC st dn ch cc v) dn ch cc = some v ∧
    ∀ (dn' : Str) (ch' cc' : Nat), dn' ≠ dn ∨ ch' ≠ ch ∨ cc' ≠ cc →
      getCC (updateCC st dn ch cc v) dn' ch' cc' = getCC st dn' ch' cc' := by
  constructor
  · simp [getCC, updateCC, getAssoc_setAssoc_self]
  · intro dn' ch' cc' hne
    by_cases hdn : dn' = dn
    · subst hdn
      by_cases hch : ch' = ch
      · subst hch
        have hcc : cc' ≠ cc := by tauto
        simp only [getCC, updateCC, getAssoc_setAssoc_self]
        rw [getAssoc_setAssoc_ne _ hcc]
        cases hdev : getAssoc dn' st.devices with
        | none => simp [hdev, getAssoc]
        | some cm =>
          simp only [hdev, Option.getD_some]
          cases hcm : getAssoc ch' cm with
          | none => simp [hcm, getAssoc]
          | some m => simp [hcm]
      · simp only [getCC, updateCC, getAssoc_setAssoc_self]
        rw [getAssoc_setAssoc_ne _ hch]
        cases hdev : getAssoc dn' st.devices with
        | none => simp [hdev, getAssoc]
        | some cm => simp [hdev]
    · simp only [getCC, updateCC]
      rw [getAssoc_setAssoc_ne _ hdn]

/-- Witness for C10: set one cell, read it and an untouched neighbour. -/
theorem updateCC_frame_witness :
    getCC (updateCC ⟨[]⟩ (strCodes "Korg") 1 7 64) (strCodes "Korg") 1 7 = some 64 ∧
    getCC (updateCC ⟨[]⟩ (strCodes "Korg") 1 7 64) (strCodes "Korg") 1 8 =
      getCC ⟨[]⟩ (strCodes "Korg") 1 8 :=
  ⟨(updateCC_frame ⟨[]⟩ (strCodes "Korg") 1 7 64).1,
   (updateCC_frame ⟨[]⟩ (strCodes "Korg") 1 7 64).2 (strCodes "Korg") 1 8 (by decide)⟩

/-! ## Claim C9 -/

/-- C9, counterexample: a payload with all four required fields
present but with the empty string as `deviceName` is dropped by
`handleClientMidi` (the guard tests `!deviceName`, truthiness, not
presence): the store is not updated and nothing is emitted, although
the claim requires a present-field payload to be recorded and
broadcast. -/
theorem handleClientMidi_empty_name_cex :
    handleClientMidi ⟨[]⟩ ⟨some [], some 1, some 7, some 64⟩ = (⟨[]⟩, []) ∧
    (⟨some [], some 1, some 7, some 64⟩ : MidiPayload).deviceName ≠ none ∧
    (⟨some [], some 1, some 7, some 64⟩ : MidiPayload).channel ≠ none ∧
    (⟨some [], some 1, some 7, some 64⟩ : MidiPayload).cc ≠ none ∧
    (⟨some [], some 1, some 7, some 64⟩ : MidiPayload).value ≠ none := by
  refine ⟨rfl, ?_, ?_, ?_, ?_⟩ <;> decide

/-- C9, amended: when a required field is `undefined` — or the
deviceName is present but empty (falsy) — `handleClientMidi` returns
with the store unchanged and emits nothing; when all fields are
present and the deviceName is non-empty it records the value in the
store and emits exactly one `midi:update` with the same tuple to all
clients. -/
theorem handleClientMidi_spec :
    (∀ (st : Store) (d : MidiPayload),
      d.deviceName = none ∨ d.channel = none ∨ d.cc = none ∨ d.value = none ∨
        d.deviceName = some [] →
      handleClientMidi st d = (st, [])) ∧
    (∀ (st : Store) (dn : Str) (ch cc v : Nat), dn ≠ [] →
      handleClientMidi st ⟨some dn, some ch, some cc, some v⟩ =
        (updateCC st dn ch cc v, [⟨dn, ch, cc, v⟩]) ∧
      getCC (updateCC st dn ch cc v) dn ch cc = some v) := by
  constructor
  · intro st d h
    simp only [handleClientMidi]
    rcases h with h | h | h | h | h
    · rw [h]
    · rw [h]
      all_goals cases d.deviceName <;> cases d.cc <;> cases d.value <;> rfl
    · rw [h]
      all_goals cases d.deviceName <;> cases d.channel <;> cases d.value <;> rfl
    · rw [h]
      all_goals cases d.deviceName <;> cases d.channel <;> cases d.cc <;> rfl
    · rw [h]
      all_goals cases d.channel <;> cases d.cc <;> cases d.value <;> rfl
  · intro st dn ch cc v hne
    constructor
    · simp only [handleClientMidi]
      rw [if_neg (fun h => hne (List.isEmpty_iff.mp h))]
    · simp [getCC, updateCC, getAssoc_setAssoc_self]

/-- Witness for C9: a well-formed payload is recorded and echoed. -/
theorem handleClientMidi_spec_witness :
    handleClientMidi ⟨[]⟩ ⟨some (strCodes "Korg"), some 1, some 7, some 64⟩ =
      (updateCC ⟨[]⟩ (strCodes "Korg") 1 7 64, [⟨strCodes "Korg", 1, 7, 64⟩]) :=
  (handleClientMidi_spec.2 ⟨[]⟩ (strCodes "Korg") 1 7 64 (by decide)).1

/-! ## Claim C4 -/

/-- C4, counterexample: `handleIncomingMidi` copies a remembered
channel out of the persisted `channelMap` without validation, so a
legacy or corrupted record (here `{"korg": 0}`, matching the code
comment's `channel_0based` convention) creates a source whose channel
is 0, outside [1,16], even though the incoming event's channel (3) is
in range. -/
theorem channel_range_violated_cex :
    ¬ channelsInRange (handleIncomingMidi [(strCodes "korg", 0)] [] (strCodes "Korg") 3) := by
  unfold channelsInRange
  decide

/-- C4, amended: the channel invariant holds for every operation
provided the persisted channelMap's values are themselves within
[1,16] (as the app's own auto-save produces): source creation with an
in-range event channel, the channel-edit box (`saveChannel` forwards
only parsed integers within [1,16]), and direct channel updates with
an in-range value all preserve channel ∈ [1,16]. -/
theorem channel_ops_preserve_range :
    (∀ (cm : List (Str × Nat)) (sources : List Source) (dn : Str) (ch : Nat),
      (∀ p ∈ cm, 1 ≤ p.2 ∧ p.2 ≤ 16) → 1 ≤ ch → ch ≤ 16 → channelsInRange sources →
      channelsInRange (handleIncomingMidi cm sources dn ch)) ∧
    (∀ (parsed : Option Int) (c : Int), saveChannel parsed = some c → 1 ≤ c ∧ c ≤ 16) ∧
    (∀ (sources : List Source) (sid : Str) (nc : Nat), 1 ≤ nc → nc ≤ 16 →
      channelsInRange sources → channelsInRange (updateSourceChannel sources sid nc)) := by
  refine ⟨?_, ?_, ?_⟩
  · intro cm sources dn ch hcm h1 h16 hsrc
    simp only [handleIncomingMidi]
    by_cases hex : sources.any (fun s => s.id == sourceIdOf dn ch) = true
    · rw [if_pos hex]
      exact hsrc
    · rw [if_neg hex]
      intro s hs
      rw [List.mem_append] at hs
      rcases hs with hs | hs
      · exact hsrc s hs
      · rw [List.mem_singleton] at hs
        subst hs
        cases hga : getAssoc (baseName dn) cm with
        | none => simpa [hga] using ⟨h1, h16⟩
        | some c => simpa [hga] using hcm _ (getAssoc_mem hga)
  · intro parsed c h
    cases parsed with
    | none => cases h
    | some chan =>
      simp only [saveChannel] at h
      by_cases hc : (1 ≤ chan && chan ≤ 16) = true
      · rw [if_pos hc] at h
        injection h with h
        subst h
        simpa using hc
      · rw [if_neg hc] at h
        cases h
  · intro sources sid nc h1 h16 hsrc s hs
    simp only [updateSourceChannel] at hs
    rw [List.mem_map] at hs
    obtain ⟨t, ht, rfl⟩ := hs
    by_cases hid : (t.id == sid) = true
    · simp only [hid, if_pos]
      exact ⟨h1, h16⟩
    · simp only [hid, Bool.false_eq_true, if_neg, not_false_eq_true]
      exact hsrc t ht

/-- Witness for C4: an in-range remembered channel keeps the invariant. -/
theorem channel_ops_preserve_range_witness :
    channelsInRange (handleIncomingMidi [(strCodes "korg", 5)] [] (strCodes "Korg") 3) :=
  channel_ops_preserve_range.1 [(strCodes "korg", 5)] [] (strCodes "Korg") 3
    (by decide) (by decide) (by decide) (by intro s hs; cases hs)

end MIDImachine
